import Mathlib

set_option maxRecDepth 100000

/-!
Verification of the SOW generator's retrieval-and-indexing subsystem.

The development shallowly embeds the JavaScript source:

* `src/indexer/gdrive-indexer.js` (class `GDriveIndexer`): filename metadata
  fallback, per-file indexing step, checkpointing.
* `src/indexer/sow-indexer.js` (class `SowIndexer`): directory indexing step,
  filename fallback, checkpointing.
* `src/retriever/rag-retriever.js` (class `RagRetriever`): `cosineSimilarity`,
  `findSimilar`, `filterResults`.

JavaScript numbers are modelled as real numbers; absent object fields and
`null`/`undefined` values are modelled as `Option.none`; collaborator calls
(download, LLM metadata extraction, embedding generation) are modelled as
per-document oracle fields carried on the input, since the indexer only
branches on their success/failure and stores their results.
-/

namespace SowGen

/-! ## String utilities

Embeddings of the JavaScript string operations used by the two filename
fallback heuristics. -/

/-- Separator class of the regex `[_\-\s]`: underscore, hyphen or whitespace.
(JS `\s` also matches some exotic Unicode spaces; the filenames at stake are
ASCII, so `Char.isWhitespace` is an adequate model.) -/
def isSep (c : Char) : Bool := c = '_' || c = '-' || c.isWhitespace

/-- Helper for `splitTokens`: scans the character list, accumulating the
current token (in reverse) in `cur`; a separator run ends the token once (the
flag `prevSep` records that the previous character was a separator, so the
rest of the run is skipped), exactly as the regex `split(/[_\-\s]+/)` treats a
run of separators as a single delimiter (leading and trailing runs produce an
empty leading/trailing piece, as in JS). -/
def splitSepRuns (prevSep : Bool) (cur : List Char) : List Char → List String
  | [] => [String.mk cur.reverse]
  | c :: rest =>
    if isSep c then
      if prevSep then splitSepRuns true cur rest
      else String.mk cur.reverse :: splitSepRuns true [] rest
    else splitSepRuns false (c :: cur) rest

/-- Embedding of `name.split(/[_\-\s]+/)`. -/
def splitTokens (s : String) : List String := splitSepRuns false [] s.data

/-- Embedding of `String.prototype.toLowerCase` (ASCII-adequate; core's
`String.toLower` is avoided because its `mapAux` loop does not reduce in the
kernel). -/
def lowerStr (s : String) : String := String.mk (s.data.map Char.toLower)

/-- Drops the last `n` characters of a string (the effect of removing a
matched suffix). -/
def dropLast (s : String) (n : Nat) : String :=
  String.mk (s.data.take (s.data.length - n))

/-- Does `s` end with `suffix`? -/
def endsWithStr (s suffix : String) : Bool := suffix.data.isSuffixOf s.data

/-- Embedding of `fileName.replace(/\.docx?$|\.pdf$/i, '')`. -/
def stripExt (s : String) : String :=
  let l := lowerStr s
  if endsWithStr l ".docx" then dropLast s 5
  else if endsWithStr l ".doc" then dropLast s 4
  else if endsWithStr l ".pdf" then dropLast s 4
  else s

/-- Does a (lowercased) token match `v\d` exactly: the letter `v` followed by
a single digit? -/
def isVDigit (s : String) : Bool :=
  match s.data with
  | [c, d] => c = 'v' && d.isDigit
  | _ => false

/-- Does a token consist solely of digits (regex `\d+` anchored)? -/
def isNumberTok (s : String) : Bool :=
  !s.data.isEmpty && s.data.all Char.isDigit

/-- Embedding of the GDrive indexer's token filter regex
`/^(sow|scope|v\d|version|\d+|setup|inline)$/i`. -/
def isBoilerplate (t : String) : Bool :=
  let l := lowerStr t
  l = "sow" || l = "scope" || l = "version" || l = "setup" || l = "inline" ||
    isVDigit l || isNumberTok l

/-- Embedding of the SOW indexer's token filter
`p.toLowerCase().match(/^(sow|scope|v\d|version|\d+)$/)`. -/
def isBoilerplateSow (t : String) : Bool :=
  let l := lowerStr t
  l = "sow" || l = "scope" || l = "version" || isVDigit l || isNumberTok l

/-- Embedding of JS `list[0] || dflt`: the empty string is falsy, so both a
missing first element and an empty first element yield the default. -/
def jsFirstOr (l : List String) (dflt : String) : String :=
  match l with
  | [] => dflt
  | x :: _ => if x = "" then dflt else x

/-- Embedding of node `path.basename`: the component after the last slash. -/
def basename (p : String) : String :=
  String.mk ((p.data.reverse.takeWhile (fun c => c ≠ '/')).reverse)

/-- Embedding of node `path.extname` applied to a basename: the suffix from
the last dot (inclusive); empty if there is no dot or the only dot is the
leading character. -/
def extname (b : String) : String :=
  let rev := b.data.reverse
  let afterDot := rev.takeWhile (fun c => c ≠ '.')
  if afterDot.length = rev.length then ""
  else if afterDot.length + 1 = rev.length then ""
  else String.mk ('.' :: afterDot.reverse)

/-- Embedding of `path.basename(filePath, path.extname(filePath))`. -/
def basenameNoExt (p : String) : String :=
  let b := basename p
  let e := extname b
  if e = "" then b else dropLast b e.data.length

/-! ## Metadata -/

/-- Embedding of JS `Array.prototype.join(' ')`. -/
def joinSpace : List String → String
  | [] => ""
  | [x] => x
  | x :: xs => x ++ " " ++ joinSpace xs

/-- Shape of the metadata object attached to every indexed record
(`customer` … `keywords`, see the LLM prompt and both fallbacks). -/
structure Metadata where
  customer : String
  project : String
  industry : String
  modules : List String
  integrations : List String
  features : List String
  complexity : String
  summary : String
  keywords : List String
deriving DecidableEq, Repr

/-- Embedding of `GDriveIndexer.extractMetadataFromFilename`. -/
def extractMetadataFromFilename (fileName : String) : Metadata :=
  let parts := splitTokens (stripExt fileName)
  let filtered := parts.filter (fun p => !isBoilerplate p)
  { customer := jsFirstOr filtered "Unknown"
    project := joinSpace filtered
    industry := "unknown"
    modules := []
    integrations := []
    features := []
    complexity := "medium"
    summary := ""
    keywords := filtered }

/-- Embedding of `SowIndexer.extractCustomerFromFilename`. -/
def extractCustomerFromFilename (filePath : String) : String :=
  let parts := splitTokens (basenameNoExt filePath)
  let filtered := parts.filter (fun p => !isBoilerplateSow p)
  jsFirstOr filtered "Unknown"

/-- Embedding of the fallback metadata object built in the catch branch of
`SowIndexer.extractMetadata`: only `customer` is derived from filtered
filename tokens; `project` is the whole basename with its extension stripped,
and `keywords` is empty. -/
def sowFallbackMetadata (filePath : String) : Metadata :=
  { customer := extractCustomerFromFilename filePath
    project := basenameNoExt filePath
    industry := "unknown"
    modules := []
    integrations := []
    features := []
    complexity := "medium"
    summary := ""
    keywords := [] }

/-- Token filter named by the specification sentence for the fallback:
tokens matching "sow", "scope", "v<digit>" or bare numbers are discarded. -/
def claimBoilerplate (t : String) : Bool :=
  let l := lowerStr t
  l = "sow" || l = "scope" || isVDigit l || isNumberTok l

/-- Fallback metadata as the specification describes it (second definition for
the refinement comparison, written from the spec's words, not the source):
split on separators, discard the listed boilerplate tokens, first remaining
token is `customer` (or "Unknown" if none remain), all remaining tokens joined
form `project` and are the `keywords`; fixed defaults elsewhere. -/
def specFallbackMetadata (sourceName : String) : Metadata :=
  let parts := splitTokens (stripExt sourceName)
  let kept := parts.filter (fun p => !claimBoilerplate p)
  { customer := match kept with | [] => "Unknown" | c :: _ => c
    project := joinSpace kept
    industry := "unknown"
    modules := []
    integrations := []
    features := []
    complexity := "medium"
    summary := ""
    keywords := kept }


/-! ## Indexer models

Per-document collaborator outcomes (download result, LLM metadata result,
embedding call result) are carried as oracle fields on the input file value:
the indexer code only branches on their success/failure and stores their
payloads, so this captures `GDriveIndexer.indexFolder` and
`SowIndexer.indexDirectory` faithfully. Embedding vectors are opaque payloads
to the indexers and are modelled over `ℚ` to keep the model executable. -/

/-- One Google Drive file together with the outcomes of the collaborator
calls made while processing it: `download` is the value returned by
`downloadFile` (`none` models its `null` returns), `llm` the parsed JSON of
`extractMetadata` (`none` models a failed call or unparsable response, which
falls back to the filename heuristic), and `embed` the result of
`generateEmbedding` (`none` models the call throwing, which is caught by the
per-file `catch`). -/
structure GFile where
  id : String
  name : String
  webViewLink : String
  createdTime : String
  modifiedTime : String
  download : Option String
  llm : Option Metadata
  embed : Option (List ℚ)
deriving DecidableEq

/-- One record of the GDrive index: the object pushed by
`GDriveIndexer.indexFolder` (`{id, fileName, webViewLink, createdTime,
modifiedTime, ...metadata}`); the spread metadata carries `embedding` only in
the extracted-text branch, modelled by the `embedding` option. -/
structure GRecord where
  id : String
  fileName : String
  webViewLink : String
  createdTime : String
  modifiedTime : String
  meta : Metadata
  embedding : Option (List ℚ)
deriving DecidableEq

/-- Mutable state of a `GDriveIndexer.indexFolder` run: the `this.index`
array, the `processed`/`failed` counters, and the sizes of the index at each
`saveIndex` call (each call writes both the full and the light artifact). -/
structure GState where
  index : List GRecord
  processed : Nat
  failed : Nat
  saveLog : List Nat
deriving DecidableEq

/-- The state at the start of an indexing run. -/
def gInitState : GState := { index := [], processed := 0, failed := 0, saveLog := [] }

/-- Embedding of `GDriveIndexer.extractMetadata`: the parsed LLM response if
the call succeeded and parsed, else `extractMetadataFromFilename`. -/
def gExtractMetadata (f : GFile) : Metadata :=
  f.llm.getD (extractMetadataFromFilename f.name)

/-- The successful-document tail of the GDrive loop body: push the record,
bump `processed`, and save intermediate progress when `processed % 50 === 0`. -/
def gPushRecord (s : GState) (r : GRecord) : GState :=
  let index := s.index ++ [r]
  let processed := s.processed + 1
  if processed % 50 = 0 then
    { index := index, processed := processed, failed := s.failed,
      saveLog := s.saveLog ++ [index.length] }
  else
    { index := index, processed := processed, failed := s.failed, saveLog := s.saveLog }

/-- Embedding of one iteration of the `for (const file of files)` loop of
`GDriveIndexer.indexFolder`: if the downloaded text is truthy and longer than
100 characters, metadata comes from the LLM (with filename fallback) and an
embedding is generated — a throwing embedding call is caught and counted as
`failed` — otherwise the record gets filename metadata and no embedding. -/
def gstep (s : GState) (f : GFile) : GState :=
  match f.download with
  | some t =>
    if 100 < t.length then
      match f.embed with
      | some e =>
        gPushRecord s
          { id := f.id, fileName := f.name, webViewLink := f.webViewLink,
            createdTime := f.createdTime, modifiedTime := f.modifiedTime,
            meta := gExtractMetadata f, embedding := some e }
      | none => { s with failed := s.failed + 1 }
    else
      gPushRecord s
        { id := f.id, fileName := f.name, webViewLink := f.webViewLink,
          createdTime := f.createdTime, modifiedTime := f.modifiedTime,
          meta := extractMetadataFromFilename f.name, embedding := none }
  | none =>
    gPushRecord s
      { id := f.id, fileName := f.name, webViewLink := f.webViewLink,
        createdTime := f.createdTime, modifiedTime := f.modifiedTime,
        meta := extractMetadataFromFilename f.name, embedding := none }

/-- Embedding of `GDriveIndexer.indexFolder`: fold the per-file step over the
discovered files, then save the final index. -/
def grun (files : List GFile) : GState :=
  let s := files.foldl gstep gInitState
  { s with saveLog := s.saveLog ++ [s.index.length] }

/-- Outcome of `processSowFile`'s text extraction for one file: an extension
other than `.docx`/`.pdf` (the function returns `null`), a thrown error
(caught by `indexDirectory`'s per-file `catch`), or extracted text. -/
inductive SOutcome where
  | badExt
  | throws
  | text (t : String)
deriving DecidableEq

/-- One file of a `SowIndexer.indexDirectory` run with its collaborator
outcomes (`embed = none` models `generateEmbedding` throwing). -/
structure SFile where
  path : String
  outcome : SOutcome
  llm : Option Metadata
  embed : Option (List ℚ)
deriving DecidableEq

/-- One record of the SOW index, as returned by `processSowFile`. -/
structure SRecord where
  id : String
  filePath : String
  meta : Metadata
  embedding : Option (List ℚ)
  textLength : Nat
deriving DecidableEq

/-- Mutable state of a `SowIndexer.indexDirectory` run. -/
structure SState where
  index : List SRecord
  processed : Nat
  failed : Nat
  saveLog : List Nat
deriving DecidableEq

/-- The state at the start of a directory indexing run. -/
def sInitState : SState := { index := [], processed := 0, failed := 0, saveLog := [] }

/-- Embedding of `SowIndexer.extractMetadata`: parsed LLM response or the
filename fallback object. -/
def sExtractMetadata (f : SFile) : Metadata :=
  f.llm.getD (sowFallbackMetadata f.path)

/-- Embedding of one iteration of the loop of `SowIndexer.indexDirectory`
(with `processSowFile` inlined): a null result (unsupported extension, or
text that is falsy or shorter than 100 characters) stores nothing and bumps
no counter; a thrown error bumps `failed`; otherwise a record with metadata
and embedding is pushed and `processed` is bumped. The `processed % 50 === 0`
branch of this indexer only logs, it does not save. -/
def sstep (s : SState) (f : SFile) : SState :=
  match f.outcome with
  | .badExt => s
  | .throws => { s with failed := s.failed + 1 }
  | .text t =>
    if t.length < 100 then s
    else
      match f.embed with
      | none => { s with failed := s.failed + 1 }
      | some e =>
        { s with
          index := s.index ++
            [{ id := basename f.path, filePath := f.path,
               meta := sExtractMetadata f, embedding := some e,
               textLength := t.length }],
          processed := s.processed + 1 }

/-- Embedding of `SowIndexer.indexDirectory`: fold the per-file step, then
save the index once at the end. -/
def srun (files : List SFile) : SState :=
  let s := files.foldl sstep sInitState
  { s with saveLog := s.saveLog ++ [s.index.length] }

/-- Sample Drive file whose download returns `null`: processed via the
filename-metadata branch. -/
def gfNull : GFile :=
  { id := "X", name := "Acme_sow.docx", webViewLink := "", createdTime := "",
    modifiedTime := "", download := none, llm := none, embed := none }

/-- Sample local file whose extracted text has only 50 characters. -/
def sfShort : SFile :=
  { path := "Acme_sow.docx", outcome := .text (String.mk (List.replicate 50 'a')),
    llm := none, embed := some [] }

/-- Sample local file that processes successfully: 100 characters of text and
a successful embedding call. -/
def sfGood : SFile :=
  { path := "Acme_sow.docx", outcome := .text (String.mk (List.replicate 100 'a')),
    llm := none, embed := some [1] }


/-! ## Retriever model

Embedding of `RagRetriever` (`src/retriever/rag-retriever.js`). JS numbers
are modelled as `ℝ`; `Real.sqrt` makes these definitions noncomputable, and
the comparator uses the classical order decidability of `ℝ`. -/

/-- Embedding of `RagRetriever.cosineSimilarity`. The guard returns 0 when
either vector is absent (`!vecA || !vecB`; JS arrays, even empty ones, are
truthy, so only `null`/`undefined` are caught here) or the lengths differ;
then the loop over `i < vecA.length` accumulates the dot product and the two
squared norms (with equal lengths the dot product over indices equals the sum
over the zipped lists), and a zero norm yields 0. -/
noncomputable def cosineSimilarity (a b : Option (List ℝ)) : ℝ :=
  match a, b with
  | some va, some vb =>
    if va.length = vb.length then
      let dot := ((va.zip vb).map fun p => p.1 * p.2).sum
      let normA := (va.map fun x => x * x).sum
      let normB := (vb.map fun x => x * x).sum
      if normA = 0 ∨ normB = 0 then 0
      else dot / (Real.sqrt normA * Real.sqrt normB)
    else 0
  | _, _ => 0

/-- One loaded index entry as the retriever sees it: a JSON object whose
fields may be absent. `id` stands for the remaining payload fields; the
fields the retriever reads (`embedding`, `industry`, `complexity`,
`features`) are explicit. -/
structure Rec where
  id : String
  industry : Option String
  complexity : Option String
  features : Option (List String)
  embedding : Option (List ℝ)

/-- An index entry augmented with its similarity score, as built by
`findSimilar`'s map `{...doc, score}`. -/
structure ScoredRec where
  doc : Rec
  score : ℝ

/-- The `similarities` array of `findSimilar`: every index entry scored
against the query embedding. -/
noncomputable def scoredList (index : List Rec) (q : List ℝ) : List ScoredRec :=
  index.map fun d => { doc := d, score := cosineSimilarity (some q) d.embedding }

/-- The order realised by the comparator `(a, b) => b.score - a.score` under
a stable sort: `a` may stay before `b` iff `b.score ≤ a.score`. -/
noncomputable def scoreLE (a b : ScoredRec) : Bool := decide (b.score ≤ a.score)

/-- The fully sorted `similarities` array (descending score, stable — the
ECMAScript `Array.prototype.sort` is required to be stable, which a stable
merge sort realises). -/
noncomputable def rankedAll (index : List Rec) (q : List ℝ) : List ScoredRec :=
  (scoredList index q).mergeSort scoreLE

/-- Embedding of the rest-spread `({ embedding, ...rest }) => rest`: the
result object without its `embedding` field (an absent field is `none`). -/
def stripEmbedding (r : ScoredRec) : ScoredRec :=
  { doc := { r.doc with embedding := none }, score := r.score }

/-- Embedding of `RagRetriever.findSimilar` with the query embedding (the
result of the collaborator call `generateEmbedding(queryText)`) passed as a
parameter: empty-index guard, score, sort descending, truncate to `topK`,
strip embeddings. -/
noncomputable def findSimilar (index : List Rec) (q : List ℝ) (topK : Nat) :
    List ScoredRec :=
  if index.length = 0 then []
  else ((rankedAll index q).take topK).map stripEmbedding

/-- The criteria object accepted by `filterResults`; absent fields are
`none`. -/
structure Criteria where
  industry : Option String
  minComplexity : Option String
  requiredFeatures : Option (List String)

/-- Embedding of the lookup `{low: 1, medium: 2, high: 3}[x]`: `none` models
JS `undefined`, both for an absent `complexity` field and for a value that is
not a key of the object. -/
def complexityOrder : Option String → Option Nat
  | some "low" => some 1
  | some "medium" => some 2
  | some "high" => some 3
  | _ => none

/-- Embedding of the JS comparison `x < y` on possibly-undefined numbers: if
either side is `undefined` the comparison is `NaN`-like and yields `false`. -/
def jsLt : Option Nat → Option Nat → Bool
  | some a, some b => decide (a < b)
  | _, _ => false

/-- The predicate of `filterResults`'s `results.filter(doc => ...)`: a doc is
kept iff no criterion rejects it. A falsy (empty-string) `industry` or
`minComplexity` criterion is skipped; `requiredFeatures`, being an array, is
always truthy when present, and `doc.features?.includes(f)` is falsy when
`features` is absent. -/
def keepDoc (c : Criteria) (d : Rec) : Bool :=
  (match c.industry with
   | some i => i == "" || d.industry == some i
   | none => true) &&
  (match c.minComplexity with
   | some m => m == "" || !jsLt (complexityOrder d.complexity) (complexityOrder (some m))
   | none => true) &&
  (match c.requiredFeatures with
   | some req => req.all fun f => (d.features.getD []).contains f
   | none => true)

/-- Embedding of `RagRetriever.filterResults`. -/
def filterResults (results : List ScoredRec) (c : Criteria) : List ScoredRec :=
  results.filter fun r => keepDoc c r.doc

/-- The filter criteria as the specification states them (definition written
from the spec's words for the refinement comparison): `industry` exact match,
`minComplexity` via the ordinal mapping keeping docs whose complexity ordinal
is at least the threshold's ordinal, `requiredFeatures` a superset check. -/
def specSatisfies (c : Criteria) (d : Rec) : Bool :=
  (match c.industry with
   | some i => d.industry == some i
   | none => true) &&
  (match c.minComplexity with
   | some m =>
     match complexityOrder d.complexity, complexityOrder (some m) with
     | some dOrd, some mOrd => decide (mOrd ≤ dOrd)
     | _, _ => false
   | none => true) &&
  (match c.requiredFeatures with
   | some req => req.all fun f => (d.features.getD []).contains f
   | none => true)

/-- Sample index entry that has no `embedding` field. -/
def recNoEmb : Rec :=
  { id := "d1", industry := none, complexity := none, features := none,
    embedding := none }

/-- Sample scored result whose doc has complexity "high". -/
def srHigh : ScoredRec :=
  { doc := { id := "r", industry := none, complexity := some "high",
             features := none, embedding := none }, score := 0 }

/-- Sample filter criteria requiring at least "low" complexity. -/
def critLow : Criteria :=
  { industry := none, minComplexity := some "low", requiredFeatures := none }

/-- Sample scored result whose doc has the out-of-domain complexity
"unknown". -/
def srUnknown : ScoredRec :=
  { doc := { id := "u", industry := none, complexity := some "unknown",
             features := none, embedding := none }, score := 0 }

/-- Sample filter criteria requiring at least "high" complexity. -/
def critHigh : Criteria :=
  { industry := none, minComplexity := some "high", requiredFeatures := none }

/-! ## Helper lemmas -/

/-- A sum of squares of reals is nonnegative. -/
lemma sum_sq_nonneg (v : List ℝ) : 0 ≤ (v.map fun x => x * x).sum := by
  apply List.sum_nonneg
  intro x hx
  obtain ⟨y, _, rfl⟩ := List.mem_map.mp hx
  exact mul_self_nonneg y

/-- A sum of products of first components squared is nonnegative. -/
lemma sum_fst_sq_nonneg (l : List (ℝ × ℝ)) : 0 ≤ (l.map fun p => p.1 * p.1).sum := by
  apply List.sum_nonneg
  intro x hx
  obtain ⟨p, _, rfl⟩ := List.mem_map.mp hx
  exact mul_self_nonneg _

/-- A sum of products of second components squared is nonnegative. -/
lemma sum_snd_sq_nonneg (l : List (ℝ × ℝ)) : 0 ≤ (l.map fun p => p.2 * p.2).sum := by
  apply List.sum_nonneg
  intro x hx
  obtain ⟨p, _, rfl⟩ := List.mem_map.mp hx
  exact mul_self_nonneg _

/-- Cauchy–Schwarz for a list of pairs of reals. -/
lemma list_cauchy_schwarz (l : List (ℝ × ℝ)) :
    ((l.map fun p => p.1 * p.2).sum) ^ 2 ≤
      (l.map fun p => p.1 * p.1).sum * (l.map fun p => p.2 * p.2).sum := by
  induction l with
  | nil => simp
  | cons p l ih =>
    simp only [List.map_cons, List.sum_cons]
    have hA : 0 ≤ (l.map fun p => p.1 * p.1).sum := sum_fst_sq_nonneg l
    have hB : 0 ≤ (l.map fun p => p.2 * p.2).sum := sum_snd_sq_nonneg l
    set S := (l.map fun p => p.1 * p.2).sum with hS
    set A := (l.map fun p => p.1 * p.1).sum with hA2
    set B := (l.map fun p => p.2 * p.2).sum with hB2
    rcases eq_or_lt_of_le hB with hB0 | hBpos
    · have hS2 : S ^ 2 ≤ 0 := by
        have := ih
        rw [← hB0] at this
        simpa using this
      have hS0 : S = 0 := by nlinarith [sq_nonneg S]
      rw [hS0, ← hB0]
      nlinarith [mul_nonneg hA (mul_self_nonneg p.2)]
    · have h1 : (0:ℝ) ≤ p.2 * p.2 + B := by nlinarith [mul_self_nonneg p.2]
      nlinarith [sq_nonneg (p.1 * B - p.2 * S),
        mul_nonneg h1 (sub_nonneg.mpr ih), hBpos]

/-- With equal lengths, summing squared first components over the zipped list
equals summing squares over the first list. -/
lemma zip_fst_sq_sum :
    ∀ {va vb : List ℝ}, va.length = vb.length →
      ((va.zip vb).map fun p => p.1 * p.1).sum = (va.map fun x => x * x).sum := by
  intro va
  induction va with
  | nil => intro vb h; simp
  | cons a va ih =>
    intro vb h
    cases vb with
    | nil => simp at h
    | cons b vb =>
      simp only [List.zip_cons_cons, List.map_cons, List.sum_cons, List.length_cons] at *
      rw [ih (by omega)]

/-- With equal lengths, summing squared second components over the zipped
list equals summing squares over the second list. -/
lemma zip_snd_sq_sum :
    ∀ {va vb : List ℝ}, va.length = vb.length →
      ((va.zip vb).map fun p => p.2 * p.2).sum = (vb.map fun x => x * x).sum := by
  intro va
  induction va with
  | nil =>
    intro vb h
    cases vb with
    | nil => simp
    | cons b vb => simp at h
  | cons a va ih =>
    intro vb h
    cases vb with
    | nil => simp at h
    | cons b vb =>
      simp only [List.zip_cons_cons, List.map_cons, List.sum_cons, List.length_cons] at *
      rw [ih (by omega)]

/-- The cosine of anything against an absent vector is 0. -/
lemma cosineSimilarity_none_right (a : Option (List ℝ)) :
    cosineSimilarity a none = 0 := by
  cases a <;> rfl

/-- The cosine of an absent vector against anything is 0. -/
lemma cosineSimilarity_none_left (b : Option (List ℝ)) :
    cosineSimilarity none b = 0 := by
  cases b <;> rfl

/-- The comparator order is transitive. -/
lemma scoreLE_trans : ∀ (a b c : ScoredRec), scoreLE a b → scoreLE b c → scoreLE a c := by
  intro a b c hab hbc
  simp only [scoreLE, decide_eq_true_eq] at *
  exact le_trans hbc hab

/-- The comparator order is total. -/
lemma scoreLE_total : ∀ (a b : ScoredRec), scoreLE a b || scoreLE b a := by
  intro a b
  rcases le_total b.score a.score with h | h <;> simp [scoreLE, h]

/-- `findSimilar` returns at most `topK` results. -/
lemma findSimilar_length_le (index : List Rec) (q : List ℝ) (k : Nat) :
    (findSimilar index q k).length ≤ k := by
  unfold findSimilar
  split
  · simp
  · rw [List.length_map]
    exact List.length_take_le k _

/-! ## Claim theorems -/

/-- C4: `cosineSimilarity(a, b)` returns exactly 0 if either vector is
absent, if the two vectors differ in length, if either vector is empty, or if
either vector's squared norm is zero; otherwise it returns
dot(a,b) / (‖a‖·‖b‖), a value in [-1, 1]. -/
theorem cosineSimilarity_spec (a b : Option (List ℝ)) :
    (a = none ∨ b = none → cosineSimilarity a b = 0) ∧
    (∀ va vb, a = some va → b = some vb → va.length ≠ vb.length →
      cosineSimilarity a b = 0) ∧
    (∀ va vb, a = some va → b = some vb → va = [] ∨ vb = [] →
      cosineSimilarity a b = 0) ∧
    (∀ va vb, a = some va → b = some vb →
      (va.map fun x => x * x).sum = 0 ∨ (vb.map fun x => x * x).sum = 0 →
      cosineSimilarity a b = 0) ∧
    (∀ va vb, a = some va → b = some vb → va.length = vb.length →
      (va.map fun x => x * x).sum ≠ 0 → (vb.map fun x => x * x).sum ≠ 0 →
      cosineSimilarity a b =
        ((va.zip vb).map fun p => p.1 * p.2).sum /
          (Real.sqrt ((va.map fun x => x * x).sum) *
            Real.sqrt ((vb.map fun x => x * x).sum)) ∧
      -1 ≤ cosineSimilarity a b ∧ cosineSimilarity a b ≤ 1) := by
  refine ⟨?_, ?_, ?_, ?_, ?_⟩
  · rintro (rfl | rfl)
    · exact cosineSimilarity_none_left b
    · exact cosineSimilarity_none_right a
  · rintro va vb rfl rfl hlen
    simp [cosineSimilarity, hlen]
  · rintro va vb rfl rfl hemp
    by_cases hlen : va.length = vb.length
    · rcases hemp with rfl | rfl
      · have : vb = [] := List.length_eq_zero.mp (by simpa using hlen.symm)
        subst this
        simp [cosineSimilarity]
      · have : va = [] := List.length_eq_zero.mp (by simpa using hlen)
        subst this
        simp [cosineSimilarity]
    · simp [cosineSimilarity, hlen]
  · rintro va vb rfl rfl hnorm
    by_cases hlen : va.length = vb.length
    · simp [cosineSimilarity, hlen, hnorm]
    · simp [cosineSimilarity, hlen]
  · rintro va vb rfl rfl hlen hA hB
    have hval : cosineSimilarity (some va) (some vb) =
        ((va.zip vb).map fun p => p.1 * p.2).sum /
          (Real.sqrt ((va.map fun x => x * x).sum) *
            Real.sqrt ((vb.map fun x => x * x).sum)) := by
      simp only [cosineSimilarity, if_pos hlen]
      rw [if_neg]
      rintro (h | h)
      · exact hA h
      · exact hB h
    refine ⟨hval, ?_⟩
    have hnA : 0 < (va.map fun x => x * x).sum :=
      lt_of_le_of_ne (sum_sq_nonneg va) (Ne.symm hA)
    have hnB : 0 < (vb.map fun x => x * x).sum :=
      lt_of_le_of_ne (sum_sq_nonneg vb) (Ne.symm hB)
    have hs : 0 < Real.sqrt ((va.map fun x => x * x).sum) *
        Real.sqrt ((vb.map fun x => x * x).sum) :=
      mul_pos (Real.sqrt_pos.mpr hnA) (Real.sqrt_pos.mpr hnB)
    have hdot2 : (((va.zip vb).map fun p => p.1 * p.2).sum) ^ 2 ≤
        (va.map fun x => x * x).sum * (vb.map fun x => x * x).sum := by
      have := list_cauchy_schwarz (va.zip vb)
      rwa [zip_fst_sq_sum hlen, zip_snd_sq_sum hlen] at this
    have habs : |((va.zip vb).map fun p => p.1 * p.2).sum| ≤
        Real.sqrt ((va.map fun x => x * x).sum) *
          Real.sqrt ((vb.map fun x => x * x).sum) := by
      calc |((va.zip vb).map fun p => p.1 * p.2).sum|
          = Real.sqrt ((((va.zip vb).map fun p => p.1 * p.2).sum) ^ 2) :=
            (Real.sqrt_sq_eq_abs _).symm
        _ ≤ Real.sqrt ((va.map fun x => x * x).sum * (vb.map fun x => x * x).sum) :=
            Real.sqrt_le_sqrt hdot2
        _ = Real.sqrt ((va.map fun x => x * x).sum) *
              Real.sqrt ((vb.map fun x => x * x).sum) :=
            Real.sqrt_mul (le_of_lt hnA) _
    obtain ⟨h1, h2⟩ := abs_le.mp habs
    rw [hval]
    constructor
    · rw [le_div_iff₀ hs]
      linarith
    · rw [div_le_one hs]
      exact h2

/-- Witness for C4: on the one-dimensional vectors `[1]` and `[1]` the norm
hypotheses hold and the returned value lies in [-1, 1]. -/
theorem cosineSimilarity_spec_witness :
    (([(1:ℝ)].map fun x => x * x).sum ≠ 0) ∧
    (-1 ≤ cosineSimilarity (some [(1:ℝ)]) (some [1]) ∧
      cosineSimilarity (some [(1:ℝ)]) (some [1]) ≤ 1) := by
  have hn : (([(1:ℝ)].map fun x => x * x).sum ≠ 0) := by simp
  have h := (cosineSimilarity_spec (some [(1:ℝ)]) (some [1])).2.2.2.2
    [1] [1] rfl rfl rfl hn hn
  exact ⟨hn, h.2.1, h.2.2⟩

/-- C8: a query against an empty store returns the empty sequence (the guard
returns before the query is even embedded), for every query and every
`topK`. -/
theorem findSimilar_empty_store (q : List ℝ) (k : Nat) :
    findSimilar [] q k = [] := rfl

/-- C3 counterexample: a record whose `embedding` field is absent is not
excluded from ranking — querying a one-record store whose single record has
no embedding returns that record (with sentinel score 0) rather than the
empty result the claim requires. -/
theorem findSimilar_unscorable_cx :
    ({ doc := recNoEmb, score := (0:ℝ) } : ScoredRec) ∈ findSimilar [recNoEmb] [1] 5 ∧
    (findSimilar [recNoEmb] [1] 5).length = 1 := by
  have hcos : cosineSimilarity (some [(1:ℝ)]) recNoEmb.embedding = 0 :=
    cosineSimilarity_none_right _
  constructor
  · simp [findSimilar, rankedAll, scoredList, stripEmbedding, recNoEmb,
      cosineSimilarity_none_right]
  · simp [findSimilar, rankedAll, scoredList]

/-- C3 amended: a record whose embedding is absent, or whose embedding length
differs from the query embedding's length, is never truncated or padded: it
is scored with the sentinel 0 and participates in the ranking (and can
therefore appear in the ranked results, as the counterexample shows). -/
theorem unscorable_records_score_zero (index : List Rec) (q : List ℝ) (d : Rec)
    (hd : d ∈ index)
    (h : d.embedding = none ∨ ∃ v, d.embedding = some v ∧ v.length ≠ q.length) :
    ({ doc := d, score := (0:ℝ) } : ScoredRec) ∈ rankedAll index q := by
  have hcos : cosineSimilarity (some q) d.embedding = 0 := by
    rcases h with h | ⟨v, hv, hlen⟩
    · rw [h]
      exact cosineSimilarity_none_right _
    · rw [hv]
      simp only [cosineSimilarity]
      rw [if_neg]
      exact fun hc => hlen hc.symm
  rw [rankedAll, List.mem_mergeSort, scoredList]
  exact List.mem_map.mpr ⟨d, hd, by rw [hcos]⟩

/-- Witness for C3 amended: the sample no-embedding record participates in
the ranking of a one-record store with score 0. -/
theorem unscorable_records_score_zero_witness :
    ({ doc := recNoEmb, score := (0:ℝ) } : ScoredRec) ∈ rankedAll [recNoEmb] [1] :=
  unscorable_records_score_zero [recNoEmb] [1] recNoEmb (by simp) (Or.inl rfl)

/-- C6: for every store, query embedding and `topK`, `findSimilar` returns at
most `topK` results, sorted by descending score; ties are broken by the
records' original insertion order (any two entries of the scored store with
equal scores keep their relative order in the full ranking, of which the
result is the stripped `topK` prefix); and no returned result carries an
`embedding` field. -/
theorem findSimilar_topK_sorted_stable (index : List Rec) (q : List ℝ) (k : Nat) :
    (findSimilar index q k).length ≤ k ∧
    (findSimilar index q k).Pairwise (fun a b => b.score ≤ a.score) ∧
    (∀ r ∈ findSimilar index q k, r.doc.embedding = none) ∧
    (∀ a b : ScoredRec, a.score = b.score →
      List.Sublist [a, b] (scoredList index q) →
      List.Sublist [a, b] (rankedAll index q)) := by
  refine ⟨findSimilar_length_le index q k, ?_, ?_, ?_⟩
  · have hs := List.sorted_mergeSort scoreLE_trans scoreLE_total (scoredList index q)
    have hs' : (rankedAll index q).Pairwise (fun a b => b.score ≤ a.score) := by
      refine List.Pairwise.imp ?_ hs
      intro a b hab
      simpa [scoreLE] using hab
    unfold findSimilar
    split
    · simp
    · rw [List.pairwise_map]
      exact (hs'.sublist (List.take_sublist k _)).imp (fun h => h)
  · intro r hr
    unfold findSimilar at hr
    split at hr
    · simp at hr
    · obtain ⟨x, _, rfl⟩ := List.mem_map.mp hr
      rfl
  · intro a b heq hsub
    refine List.pair_sublist_mergeSort scoreLE_trans scoreLE_total ?_ hsub
    simp [scoreLE, heq]

/-- Witness for C6: in a two-record store whose records tie (both unscorable,
sentinel score 0), the tied pair keeps its insertion order in the ranking. -/
theorem findSimilar_topK_sorted_stable_witness :
    List.Sublist
      [({ doc := recNoEmb, score := cosineSimilarity (some [1]) recNoEmb.embedding } : ScoredRec),
       { doc := recNoEmb, score := cosineSimilarity (some [1]) recNoEmb.embedding }]
      (rankedAll [recNoEmb, recNoEmb] [1]) :=
  (findSimilar_topK_sorted_stable [recNoEmb, recNoEmb] [1] 1).2.2.2 _ _ rfl
    (by simp [scoredList])

/-- Pointwise agreement of `filterResults`'s predicate with the
specification's criteria, on well-formed inputs: the `industry` criterion is
not the (falsy) empty string, the `minComplexity` threshold has an ordinal,
and the doc has an ordinal whenever a threshold is given. -/
lemma keepDoc_eq_specSatisfies (c : Criteria) (d : Rec)
    (h1 : c.industry ≠ some "")
    (h2 : ∀ m, c.minComplexity = some m → complexityOrder (some m) ≠ none)
    (h3 : ∀ m, c.minComplexity = some m → complexityOrder d.complexity ≠ none) :
    keepDoc c d = specSatisfies c d := by
  have hind : ∀ i : String, c.industry = some i → (i == "") = false := by
    intro i hci
    exact beq_eq_false_iff_ne.mpr (fun h => h1 (by rw [hci, h]))
  have hmne : ∀ m : String, c.minComplexity = some m → (m == "") = false := by
    intro m hcm
    refine beq_eq_false_iff_ne.mpr (fun h => ?_)
    subst h
    exact (h2 "" hcm) rfl
  unfold keepDoc specSatisfies
  rcases hci : c.industry with _ | i <;> rcases hcm : c.minComplexity with _ | m
  · simp only [hci, hcm]
  · obtain ⟨mo, hmo⟩ := Option.ne_none_iff_exists'.mp (h2 m hcm)
    obtain ⟨dOrd, hdo⟩ := Option.ne_none_iff_exists'.mp (h3 m hcm)
    simp only [hci, hcm, hmo, hdo, jsLt, hmne m hcm, Bool.false_or]
    rw [← decide_not, decide_eq_decide.mpr Nat.not_lt]
  · simp only [hci, hcm, hind i hci, Bool.false_or]
  · obtain ⟨mo, hmo⟩ := Option.ne_none_iff_exists'.mp (h2 m hcm)
    obtain ⟨dOrd, hdo⟩ := Option.ne_none_iff_exists'.mp (h3 m hcm)
    simp only [hci, hcm, hmo, hdo, jsLt, hmne m hcm, hind i hci, Bool.false_or]
    rw [← decide_not, decide_eq_decide.mpr Nat.not_lt]

/-- C7: on well-formed inputs, `filterResults` keeps exactly the results
satisfying every given criterion (industry exact match, complexity ordinal at
least the threshold ordinal, features superset); it is a sublist of its input
(no re-ranking, no backfilling from the rest of the corpus), and applied to
the already-truncated `findSimilar` output it returns at most `topK`
results. -/
theorem filterResults_spec (results : List ScoredRec) (c : Criteria)
    (index : List Rec) (q : List ℝ) (k : Nat) :
    ((c.industry ≠ some "") →
      (∀ m, c.minComplexity = some m → complexityOrder (some m) ≠ none) →
      (∀ r ∈ results, ∀ m, c.minComplexity = some m →
        complexityOrder r.doc.complexity ≠ none) →
      filterResults results c = results.filter fun r => specSatisfies c r.doc) ∧
    List.Sublist (filterResults results c) results ∧
    (filterResults (findSimilar index q k) c).length ≤ k := by
  refine ⟨?_, List.filter_sublist _, ?_⟩
  · intro h1 h2 h3
    unfold filterResults
    apply List.filter_congr
    intro r hr
    exact keepDoc_eq_specSatisfies c r.doc h1 h2 (h3 r hr)
  · calc (filterResults (findSimilar index q k) c).length
        ≤ (findSimilar index q k).length := (List.filter_sublist _).length_le
      _ ≤ k := findSimilar_length_le index q k

/-- Witness for C7: on a singleton result list with complexity "high" and a
"low" threshold the filter agrees with the specification predicate. -/
theorem filterResults_spec_witness :
    filterResults [srHigh] critLow = [srHigh].filter fun r => specSatisfies critLow r.doc :=
  (filterResults_spec [srHigh] critLow [] [] 0).1
    (by simp [critLow])
    (by intro m hm; simp only [critLow] at hm; cases hm; simp [complexityOrder])
    (by intro r hr m hm; simp only [critLow] at hm; cases hm
        simp only [List.mem_singleton] at hr; subst hr
        simp [srHigh, complexityOrder])

/-- C10: when filtering with a `minComplexity` criterion, a result whose
`complexity` field has no ordinal (absent, or not one of "low", "medium",
"high") passes the complexity check regardless of the threshold: its
membership in the filtered output is unchanged by dropping the criterion, and
with no other criteria given it is kept outright. -/
theorem filter_invalid_complexity_kept (results : List ScoredRec) (c : Criteria)
    (m : String) (r : ScoredRec)
    (hc : c.minComplexity = some m)
    (hr : complexityOrder r.doc.complexity = none)
    (hmem : r ∈ results) :
    (r ∈ filterResults results c ↔
      r ∈ filterResults results { c with minComplexity := none }) ∧
    (c.industry = none → c.requiredFeatures = none → r ∈ filterResults results c) := by
  have hkeep : keepDoc c r.doc = keepDoc { c with minComplexity := none } r.doc := by
    unfold keepDoc
    rw [hc, hr]
    simp [jsLt]
  constructor
  · unfold filterResults
    rw [List.mem_filter, List.mem_filter, hkeep]
  · intro hind hreq
    unfold filterResults
    rw [List.mem_filter]
    refine ⟨hmem, ?_⟩
    unfold keepDoc
    rw [hc, hr, hind, hreq]
    simp [jsLt]

/-- Witness for C10: a record with complexity "unknown" is kept by a filter
requiring at least "high" complexity. -/
theorem filter_invalid_complexity_kept_witness :
    srUnknown ∈ filterResults [srUnknown] critHigh :=
  (filter_invalid_complexity_kept [srUnknown] critHigh "high" srUnknown rfl
    (by simp [srUnknown, complexityOrder]) (by simp)).2 rfl rfl

/-- C1 counterexample: indexing the same Drive file twice appends a second
record with the same `id` — the store grows to two records and `id` is not
unique, contradicting replace-on-duplicate-id. -/
theorem indexFolder_reindex_appends_cx :
    (grun [gfNull, gfNull]).index.map GRecord.id = ["X", "X"] ∧
    (grun [gfNull, gfNull]).index.length = 2 := by decide

/-- C1 amended: both indexers append unconditionally — each processed
document adds exactly one record to the end of the store (prior records are
never removed or replaced), regardless of whether its `id` already occurs, so
re-indexing a known `id` grows the store and duplicates the `id`. -/
theorem index_append_only (s : GState) (f : GFile) (s' : SState) (f' : SFile) :
    (∃ t, (gstep s f).index = s.index ++ t) ∧
    ((gstep s f).index.length = s.index.length + 1 ↔
      (gstep s f).processed = s.processed + 1) ∧
    (∃ u, (sstep s' f').index = s'.index ++ u) ∧
    ((sstep s' f').index.length = s'.index.length + 1 ↔
      (sstep s' f').processed = s'.processed + 1) := by
  refine ⟨?_, ?_, ?_, ?_⟩
  · rcases hdl : f.download with _ | t
    · simp only [gstep, hdl, gPushRecord, apply_ite GState.index, ite_self]
      exact ⟨_, rfl⟩
    · simp only [gstep, hdl, gPushRecord]
      by_cases hlen : 100 < t.length
      · rw [if_pos hlen]
        rcases hemb : f.embed with _ | e
        · simp only [hemb]
          exact ⟨[], by simp⟩
        · simp only [hemb, apply_ite GState.index, ite_self]
          exact ⟨_, rfl⟩
      · rw [if_neg hlen]
        simp only [apply_ite GState.index, ite_self]
        exact ⟨_, rfl⟩
  · rcases hdl : f.download with _ | t
    · simp only [gstep, hdl, gPushRecord, apply_ite GState.index,
        apply_ite GState.processed, ite_self]
      simp
    · simp only [gstep, hdl, gPushRecord]
      by_cases hlen : 100 < t.length
      · rw [if_pos hlen]
        rcases hemb : f.embed with _ | e
        · simp only [hemb]
          simp
        · simp only [hemb, apply_ite GState.index, apply_ite GState.processed,
            ite_self]
          simp
      · rw [if_neg hlen]
        simp only [apply_ite GState.index, apply_ite GState.processed, ite_self]
        simp
  · rcases hout : f'.outcome with _ | _ | t
    · exact ⟨[], by simp [sstep, hout]⟩
    · exact ⟨[], by simp [sstep, hout]⟩
    · simp only [sstep, hout]
      by_cases hlen : t.length < 100
      · rw [if_pos hlen]
        exact ⟨[], by simp⟩
      · rw [if_neg hlen]
        rcases hemb : f'.embed with _ | e
        · simp only [hemb]
          exact ⟨[], by simp⟩
        · simp only [hemb]
          exact ⟨_, rfl⟩
  · rcases hout : f'.outcome with _ | _ | t
    · simp [sstep, hout]
    · simp [sstep, hout]
    · simp only [sstep, hout]
      by_cases hlen : t.length < 100
      · rw [if_pos hlen]
        simp
      · rw [if_neg hlen]
        rcases hemb : f'.embed with _ | e <;> simp [hemb]

/-- C2 counterexample: the directory indexer stores nothing at all for a
candidate whose extracted text has fewer than 100 characters — no record is
created and the document is counted neither as processed nor as failed,
contradicting the claimed metadata-only record with `processed` credit. -/
theorem sow_short_text_stores_nothing_cx :
    (srun [sfShort]).index = [] ∧ (srun [sfShort]).processed = 0 ∧
    (srun [sfShort]).failed = 0 := by decide

/-- C2 amended: the Google Drive indexer behaves as claimed — a document
whose download yields `null` or at most 100 characters still gets a record
with filename-fallback metadata and an absent embedding and is counted as
processed, not failed, and a Drive record carries an embedding only when the
downloaded text exceeded 100 characters. The directory indexer instead skips
a short-text document entirely (the step is a no-op), and every record it
ever appends has a present embedding obtained from text of at least 100
characters. -/
theorem short_text_record_policy (s : GState) (f : GFile) (s' : SState) (f' : SFile) :
    ((f.download = none ∨ ∃ t, f.download = some t ∧ t.length ≤ 100) →
      (gstep s f).index = s.index ++
        [{ id := f.id, fileName := f.name, webViewLink := f.webViewLink,
           createdTime := f.createdTime, modifiedTime := f.modifiedTime,
           meta := extractMetadataFromFilename f.name, embedding := none }] ∧
      (gstep s f).processed = s.processed + 1 ∧ (gstep s f).failed = s.failed) ∧
    (∀ r, r ∈ (gstep s f).index → r ∉ s.index →
      r.embedding.isSome = true → ∃ t, f.download = some t ∧ 100 < t.length) ∧
    (∀ t, f'.outcome = .text t → t.length < 100 → sstep s' f' = s') ∧
    (∀ r, r ∈ (sstep s' f').index → r ∉ s'.index →
      r.embedding.isSome = true ∧ ∃ t, f'.outcome = .text t ∧ 100 ≤ t.length) := by
  refine ⟨?_, ?_, ?_, ?_⟩
  · rintro (hdl | ⟨t, hdl, hle⟩)
    · simp only [gstep, hdl, gPushRecord, apply_ite GState.index,
        apply_ite GState.processed, apply_ite GState.failed, ite_self]
      refine ⟨?_, ?_, ?_⟩ <;> trivial
    · simp only [gstep, hdl, gPushRecord]
      rw [if_neg (by omega)]
      simp only [apply_ite GState.index, apply_ite GState.processed,
        apply_ite GState.failed, ite_self]
      refine ⟨?_, ?_, ?_⟩ <;> trivial
  · intro r hr hnew hsome
    rcases hdl : f.download with _ | t
    · simp only [gstep, hdl, gPushRecord, apply_ite GState.index, ite_self,
        List.mem_append, List.mem_singleton] at hr
      rcases hr with hr | rfl
      · exact absurd hr hnew
      · simp at hsome
    · simp only [gstep, hdl, gPushRecord] at hr
      by_cases hlen : 100 < t.length
      · rw [if_pos hlen] at hr
        rcases hemb : f.embed with _ | e
        · simp only [hemb] at hr
          exact absurd hr hnew
        · simp only [hemb, apply_ite GState.index, ite_self, List.mem_append,
            List.mem_singleton] at hr
          rcases hr with hr | rfl
          · exact absurd hr hnew
          · exact ⟨t, rfl, hlen⟩
      · rw [if_neg hlen] at hr
        simp only [apply_ite GState.index, ite_self, List.mem_append,
          List.mem_singleton] at hr
        rcases hr with hr | rfl
        · exact absurd hr hnew
        · simp at hsome
  · intro t hout hlt
    simp only [sstep, hout]
    rw [if_pos hlt]
  · intro r hr hnew
    rcases hout : f'.outcome with _ | _ | t
    · simp only [sstep, hout] at hr
      exact absurd hr hnew
    · simp only [sstep, hout] at hr
      exact absurd hr hnew
    · simp only [sstep, hout] at hr
      by_cases hlen : t.length < 100
      · rw [if_pos hlen] at hr
        exact absurd hr hnew
      · rw [if_neg hlen] at hr
        rcases hemb : f'.embed with _ | e
        · simp only [hemb] at hr
          exact absurd hr hnew
        · simp only [hemb, List.mem_append, List.mem_singleton] at hr
          rcases hr with hr | rfl
          · exact absurd hr hnew
          · exact ⟨rfl, t, rfl, by omega⟩

/-- Witness for C2 amended: processing the null-download sample file bumps
`processed` from 0 to 1. -/
theorem short_text_record_policy_witness :
    (gstep gInitState gfNull).processed = gInitState.processed + 1 :=
  (((short_text_record_policy gInitState gfNull sInitState sfShort).1) (Or.inl rfl)).2.1

/-- `gPushRecord` preserves the checkpoint invariant relating the number of
intermediate saves to the processed count. -/
lemma gPushRecord_save_invariant (s : GState) (r : GRecord)
    (h : s.saveLog.length = s.processed / 50) :
    (gPushRecord s r).saveLog.length = (gPushRecord s r).processed / 50 := by
  simp only [gPushRecord]
  split
  · simp only [List.length_append, List.length_singleton]
    omega
  · simp only
    omega

/-- `gstep` preserves the checkpoint invariant. -/
lemma gstep_save_invariant (s : GState) (f : GFile)
    (h : s.saveLog.length = s.processed / 50) :
    (gstep s f).saveLog.length = (gstep s f).processed / 50 := by
  unfold gstep
  rcases f.download with _ | t
  · exact gPushRecord_save_invariant s _ h
  · dsimp only
    split
    · rcases f.embed with _ | e
      · exact h
      · exact gPushRecord_save_invariant s _ h
    · exact gPushRecord_save_invariant s _ h

/-- The directory indexer's step never touches the save log. -/
lemma sstep_saveLog (s : SState) (f : SFile) : (sstep s f).saveLog = s.saveLog := by
  unfold sstep
  rcases f.outcome with _ | _ | t
  · rfl
  · rfl
  · dsimp only
    split
    · rfl
    · rcases f.embed with _ | e <;> rfl

/-- C5 amended: the Google Drive indexer persists once after every 50
processed documents and once at the end of the run (its save count is
`processed / 50 + 1`); the directory indexer persists exactly once, at the
end of the run, whatever happened (its 50-document branch only logs), so a
crash there loses the whole run. -/
theorem checkpoint_policy (gfiles : List GFile) (sfiles : List SFile) :
    (grun gfiles).saveLog.length = (grun gfiles).processed / 50 + 1 ∧
    (srun sfiles).saveLog.length = 1 := by
  constructor
  · have hg : ∀ (files : List GFile) (s : GState),
        s.saveLog.length = s.processed / 50 →
        (files.foldl gstep s).saveLog.length = (files.foldl gstep s).processed / 50 := by
      intro files
      induction files with
      | nil => intro s h; exact h
      | cons f fs ih => intro s h; exact ih _ (gstep_save_invariant s f h)
    unfold grun
    simp only [List.length_append, List.length_singleton]
    rw [hg gfiles gInitState rfl]
  · have hs : ∀ (files : List SFile) (s : SState),
        (files.foldl sstep s).saveLog = s.saveLog := by
      intro files
      induction files with
      | nil => intro s; rfl
      | cons f fs ih => intro s; exact (ih (sstep s f)).trans (sstep_saveLog s f)
    unfold srun
    simp only [List.length_append, List.length_singleton, hs, sInitState]
    rfl

/-- C5 counterexample: a directory-indexer run that processes exactly 50
documents persists only once (at the end), not once after the 50th processed
document and once more at the end as the claim requires for both indexers. -/
theorem sow_checkpoint_cx :
    (srun (List.replicate 50 sfGood)).processed = 50 ∧
    (srun (List.replicate 50 sfGood)).saveLog.length = 1 := by decide

/-- C9 counterexample: for the directory indexer's fallback on
"SOW_Acme_v1.docx", `project` is the whole basename (boilerplate tokens and
separators included) and `keywords` is empty, while the claim requires the
filtered-token join "Acme" as project and `["Acme"]` as keywords (the
claim-faithful `specFallbackMetadata` shows the required values). -/
theorem sow_fallback_cx :
    (sowFallbackMetadata "SOW_Acme_v1.docx").keywords = [] ∧
    (specFallbackMetadata "SOW_Acme_v1.docx").keywords = ["Acme"] ∧
    (sowFallbackMetadata "SOW_Acme_v1.docx").project = "SOW_Acme_v1" ∧
    (specFallbackMetadata "SOW_Acme_v1.docx").project = "Acme" := by decide

/-- C9 amended: the Drive indexer's filename fallback behaves as claimed
whenever no token matches the extra discarded patterns "version", "setup",
"inline" (its discard set is larger than the claimed one) and the first kept
token is not the empty string (JS `||` falls back to "Unknown" on it); the
directory indexer's fallback instead derives only `customer` from the
filtered tokens, sets `project` to the basename with its extension stripped
and `keywords` to the empty list, with the same fixed defaults. -/
theorem fallback_metadata_characterisation (name : String) :
    ((∀ t ∈ splitTokens (stripExt name),
        lowerStr t ≠ "version" ∧ lowerStr t ≠ "setup" ∧ lowerStr t ≠ "inline") →
      ((splitTokens (stripExt name)).filter fun p => !claimBoilerplate p).head? ≠ some "" →
      extractMetadataFromFilename name = specFallbackMetadata name) ∧
    (sowFallbackMetadata name).keywords = [] ∧
    (sowFallbackMetadata name).project = basenameNoExt name ∧
    (sowFallbackMetadata name).industry = "unknown" ∧
    (sowFallbackMetadata name).complexity = "medium" := by
  refine ⟨?_, rfl, rfl, rfl, rfl⟩
  intro hextra hhead
  have hfilt : (splitTokens (stripExt name)).filter (fun p => !isBoilerplate p) =
      (splitTokens (stripExt name)).filter (fun p => !claimBoilerplate p) := by
    apply List.filter_congr
    intro t ht
    obtain ⟨h1, h2, h3⟩ := hextra t ht
    unfold isBoilerplate claimBoilerplate
    simp [h1, h2, h3]
  simp only [extractMetadataFromFilename, specFallbackMetadata]
  rw [hfilt]
  rcases hk : (splitTokens (stripExt name)).filter (fun p => !claimBoilerplate p)
    with _ | ⟨c, rest⟩
  · rfl
  · rw [hk] at hhead
    have hc : c ≠ "" := by
      intro h
      exact hhead (by rw [h]; rfl)
    simp [jsFirstOr, hc]

/-- Witness for C9 amended: on "Acme_Portal.docx" (no extra boilerplate
tokens, nonempty first kept token) the Drive fallback coincides with the
claim's description. -/
theorem fallback_metadata_characterisation_witness :
    extractMetadataFromFilename "Acme_Portal.docx" =
      specFallbackMetadata "Acme_Portal.docx" :=
  (fallback_metadata_characterisation "Acme_Portal.docx").1 (by decide) (by decide)

end SowGen
